import Mathlib

/-!
Verification of the smsgate repository against its natural-language
specification.  The Python sources are shallowly embedded as Lean
definitions: the `SMS` class (server/sms.py), the `Database` class
(server/database.py, with the sqlite tables modelled as lists of rows)
and the polling / text-decoding logic of `SMSGateRPCClient`
(client/smsgate_rpcclient.py).
-/

/-! ## Embedding of server/sms.py -/

/-- A Python `dict[int, str]` used for `SMS.parts`, embedded as an
association list.  Assignment `d[k] = v` replaces the value of an
existing key in place and appends a fresh key at the end, exactly as a
Python dict does. -/
def dictInsert (k : Int) (v : String) : List (Int × String) → List (Int × String)
  | [] => [(k, v)]
  | (k₂, v₂) :: rest =>
      if k₂ = k then (k, v) :: rest else (k₂, v₂) :: dictInsert k v rest

/-- The state of an `SMS` object relevant to text reassembly
(server/sms.py, `SMS.__init__`): the canonical `text`, the declared
`total_parts` and the `parts` dict. -/
structure SMS where
  text : String
  total_parts : Int
  parts : List (Int × String)
deriving DecidableEq, Repr

/-- `SMS.__init__`: `total_parts` defaults to 1 when the argument is
`None`; the parts dict starts empty. -/
def mkSMS (text : String) (total_parts : Option Int) : SMS :=
  { text := text
    total_parts := total_parts.getD 1
    parts := [] }

/-- `SMS.is_multipart`: true when more than one part is stored or the
declared `total_parts` exceeds 1. -/
def SMS.is_multipart (s : SMS) : Bool :=
  s.parts.length > 1 || s.total_parts > 1

/-- `SMS.is_part_complete`: vacuously true for single-part messages,
otherwise all declared parts must be present. -/
def SMS.is_part_complete (s : SMS) : Bool :=
  if ¬ s.is_multipart then true
  else (s.parts.length : Int) == s.total_parts

/-- Python `range(1, t + 1)` over the integers: the list `[1, …, t]`
(empty when `t < 1`). -/
def pyRange1 (t : Int) : List Int :=
  (List.range t.toNat).map (fun (i : Nat) => (i : Int) + 1)

/-- `SMS.get_concatenated_text`: returns `text` for single-part or
incomplete messages; otherwise joins `parts[1] … parts[total_parts]`,
falling back to `text` when a key is missing (the `except KeyError`
branch). -/
def SMS.get_concatenated_text (s : SMS) : String :=
  if ¬ s.is_multipart then s.text
  else if ¬ s.is_part_complete then s.text
  else
    match (pyRange1 s.total_parts).mapM (fun i => s.parts.lookup i) with
    | some pieces => String.join pieces
    | none => s.text

/-- `SMS.add_part`: raises `ValueError` (modelled as the second
component carrying the message) when `part_number < 1`, leaving the
object untouched; otherwise raises `total_parts` when exceeded, stores
the part, and overwrites `text` when `part_number == 1`. -/
def SMS.add_part (s : SMS) (part_number : Int) (text : String) : SMS × Option String :=
  if part_number < 1 then
    (s, some "Invalid part number. Must be positive")
  else
    let s₁ := { s with total_parts :=
      if part_number > s.total_parts then part_number else s.total_parts }
    let s₂ := { s₁ with parts := dictInsert part_number text s₁.parts }
    let s₃ := if part_number = 1 then { s₂ with text := text } else s₂
    (s₃, none)

/-- Run a sequence of `add_part` calls; a raised error aborts the
remaining calls (the exception propagates) and keeps the state reached
so far. -/
def SMS.addParts (s : SMS) : List (Int × String) → SMS × Option String
  | [] => (s, none)
  | (n, t) :: rest =>
      match s.add_part n t with
      | (s₂, none) => s₂.addParts rest
      | (s₂, some e) => (s₂, some e)

/-- The canonical submission order of an `n`-part message with texts
`ts`: part `i + 1` carries `ts[i]`. -/
def canonParts (ts : List String) : List (Int × String) :=
  (List.range ts.length).map (fun i => ((Nat.cast i + 1 : Int), ts.getD i ""))


/-! ## Embedding of the text transport encoding
(server/sms.py `SMS.to_dict` and client/smsgate_rpcclient.py
`SMSGateRPCClient._decode_text`).  A Python `str` is modelled by its
list of Unicode code points, a Python `bytes` by its list of byte
values. -/

/-- The code points of a Lean string, modelling a Python `str`. -/
def strCodes (s : String) : List Nat :=
  s.data.map Char.toNat

/-- Python `str.encode('latin1')`: each code point below 256 maps to
the identical byte; any higher code point raises `UnicodeEncodeError`
(modelled as `none`). -/
def latin1Encode (codes : List Nat) : Option (List Nat) :=
  if codes.all (fun c => c < 256) then some codes else none

/-- Python `bytes.decode('ascii')`: accepts only bytes below 128 and
raises `UnicodeDecodeError` (`none`) otherwise. -/
def asciiDecode (bs : List Nat) : Option (List Nat) :=
  if bs.all (fun b => b < 128) then some bs else none

/-- Python `str.encode('ascii')`: accepts only code points below 128. -/
def asciiEncode (codes : List Nat) : Option (List Nat) :=
  if codes.all (fun c => c < 128) then some codes else none

/-- The base64 alphabet: 6-bit value to the byte value of its character
(`A-Z`, `a-z`, `0-9`, `+`, `/`). -/
def b64Char (v : Nat) : Nat :=
  if v < 26 then 65 + v
  else if v < 52 then 97 + (v - 26)
  else if v < 62 then 48 + (v - 52)
  else if v = 62 then 43
  else 47

/-- Byte value of a base64 character back to its 6-bit value, `none`
outside the alphabet. -/
def b64Value (c : Nat) : Option Nat :=
  if 65 ≤ c ∧ c ≤ 90 then some (c - 65)
  else if 97 ≤ c ∧ c ≤ 122 then some (26 + (c - 97))
  else if 48 ≤ c ∧ c ≤ 57 then some (52 + (c - 48))
  else if c = 43 then some 62
  else if c = 47 then some 63
  else none

/-- Python `base64.b64encode`: 3-byte groups become 4 alphabet
characters; a trailing group of 1 or 2 bytes is padded with `=`
(byte 61). -/
def b64encode : List Nat → List Nat
  | [] => []
  | [b1] => [b64Char (b1 / 4), b64Char (b1 % 4 * 16), 61, 61]
  | [b1, b2] =>
      [b64Char (b1 / 4), b64Char (b1 % 4 * 16 + b2 / 16), b64Char (b2 % 16 * 4), 61]
  | b1 :: b2 :: b3 :: rest =>
      b64Char (b1 / 4) :: b64Char (b1 % 4 * 16 + b2 / 16)
        :: b64Char (b2 % 16 * 4 + b3 / 64) :: b64Char (b3 % 64) :: b64encode rest

/-- Python `base64.b64decode` on the strings produced by `b64encode`:
4 characters at a time, `=` padding only in the final group; malformed
input gives `none` (Python raises `binascii.Error`). -/
def b64decode : List Nat → Option (List Nat)
  | [] => some []
  | c1 :: c2 :: c3 :: c4 :: rest =>
      (match b64Value c1, b64Value c2 with
      | some v1, some v2 =>
          if c3 = 61 ∧ c4 = 61 ∧ rest = [] then
            some [v1 * 4 + v2 / 16]
          else if c4 = 61 ∧ rest = [] then
            (match b64Value c3 with
            | some v3 => some [v1 * 4 + v2 / 16, v2 % 16 * 16 + v3 / 4]
            | none => none)
          else
            (match b64Value c3, b64Value c4 with
            | some v3, some v4 =>
                (b64decode rest).map
                  (fun bs => (v1 * 4 + v2 / 16) :: (v2 % 16 * 16 + v3 / 4)
                    :: (v3 % 4 * 64 + v4) :: bs)
            | _, _ => none)
      | _, _ => none)
  | _ => none

/-- The `text` field computation of `SMS.to_dict`: take
`get_concatenated_text` for multipart messages and the plain text
otherwise, then `text.encode('latin1')` followed by
`base64.b64encode`; the result is the byte sequence of the base64
string placed in the RPC dictionary (`none` when `encode('latin1')`
raises). -/
def to_dict_text (s : SMS) : Option (List Nat) :=
  (latin1Encode (strCodes
    (if s.is_multipart then s.get_concatenated_text else s.text))).map b64encode

/-- `SMSGateRPCClient._decode_text`:
`base64.b64decode(text.encode('ascii')).decode('ascii')`. -/
def decode_text (codes : List Nat) : Option (List Nat) :=
  (asciiEncode codes).bind (fun bs => (b64decode bs).bind asciiDecode)

/-! ## Embedding of the delivery polling loop
(client/smsgate_rpcclient.py `SMSGateRPCClient.send_sms`). -/

/-- The `while not self.client.get_delivery_status(...)` loop of
`send_sms`, driven by the oracle `status k` answering the `k`-th poll
call, with `fuel` bounding the iterations (the Python loop can run
forever).  Returns the times of all poll calls: the loop starts at
time 0 and `time.sleep(3)` separates a failed check from the next
call; `none` models non-termination within `fuel`. -/
def pollTimes (status : Nat → Bool) : Nat → Nat → Nat → Option (List Nat)
  | 0, _, _ => none
  | fuel + 1, k, t =>
      if status k then some [t]
      else (pollTimes status fuel (k + 1) (t + 3)).map (fun ts => t :: ts)

/-- `SMSGateRPCClient.send_sms`: obtains the SMS id from the server,
then, when `wait_for_delivery` is set, blocks in the polling loop.
The result carries the returned id and the times of all
`get_delivery_status` calls (empty when no waiting was requested). -/
def send_sms (status : Nat → Bool) (sms_id : String) (wait_for_delivery : Bool)
    (fuel : Nat) : Option (String × List Nat) :=
  if wait_for_delivery then
    (pollTimes status fuel 0 0).map (fun ts => (sms_id, ts))
  else
    some (sms_id, [])


/-! ## Embedding of server/database.py

The sqlite tables are modelled as Lean lists of row records; `datetime.now()`
and `CURRENT_TIMESTAMP` become an explicit clock argument `now : Nat`. -/

/-- The `EventType` enum. -/
inductive EventType
  | incoming_sms
  | incoming_call
  | outgoing_sms
deriving DecidableEq, Repr

/-- The stored string of an `EventType` (its `.value`). -/
def EventType.value : EventType → String
  | incoming_sms => "incoming_sms"
  | incoming_call => "incoming_call"
  | outgoing_sms => "outgoing_sms"

/-- The `EventStatus` enum. -/
inductive EventStatus
  | pending
  | processed
  | failed
  | error
deriving DecidableEq, Repr

/-- The stored string of an `EventStatus` (its `.value`). -/
def EventStatus.value : EventStatus → String
  | pending => "pending"
  | processed => "processed"
  | failed => "failed"
  | error => "error"

/-! ### `json.dumps` / `json.loads` for the event bodies

We model the bodies passed to `add_event` as flat Python dicts with
string keys and string values, serialised with Python's default
separators `", "` and `": "`.  Strings made of printable ASCII other
than the quote and the backslash are emitted verbatim by `json.dumps`
(its default `ensure_ascii` escaping never fires on them), which is
the fragment modelled here. -/

/-- A character that `json.dumps` copies verbatim into a string
literal. -/
def plainChar (c : Char) : Bool :=
  32 ≤ c.toNat && c.toNat < 127 && c ≠ '"' && c ≠ '\\'

/-- A string serialised verbatim by `json.dumps`. -/
def plainStr (s : String) : Bool :=
  s.data.all plainChar

/-- An event body within the modelled `json` fragment. -/
def BodyGood (b : List (String × String)) : Bool :=
  b.all (fun p => plainStr p.1 && plainStr p.2)

/-- `json.dumps` of one `"key": "value"` entry. -/
def dumpEntry (p : String × String) : List Char :=
  '"' :: p.1.data ++ '"' :: ':' :: ' ' :: '"' :: p.2.data ++ ['"']

/-- `json.dumps` entries joined with the default `", "` separator. -/
def dumpPairs : List (String × String) → List Char
  | [] => []
  | [p] => dumpEntry p
  | p :: q :: rest => dumpEntry p ++ ',' :: ' ' :: dumpPairs (q :: rest)

/-- `json.dumps` for a flat string-to-string dict. -/
def jsonDumps (b : List (String × String)) : List Char :=
  '\x7b' :: dumpPairs b ++ ['\x7d']

/-- Parse a JSON string literal up to its closing quote (the opening
quote already consumed). -/
def parseStr : List Char → Option (List Char × List Char)
  | [] => none
  | c :: rest =>
      if c = '"' then some ([], rest)
      else (parseStr rest).map (fun r => (c :: r.1, r.2))

/-- Parse one `"key": "value"` entry. -/
def parseEntry (cs : List Char) : Option ((String × String) × List Char) :=
  match cs with
  | c :: rest =>
      if c = '"' then
        (parseStr rest).bind (fun kr =>
          match kr.2 with
          | c1 :: c2 :: c3 :: rest2 =>
              if c1 = ':' ∧ c2 = ' ' ∧ c3 = '"' then
                (parseStr rest2).map (fun vr => ((String.mk kr.1, String.mk vr.1), vr.2))
              else none
          | _ => none)
      else none
  | [] => none

/-- Parse a `", "`-separated entry sequence terminated by the closing
brace. -/
def parsePairs : Nat → List Char → Option (List (String × String) × List Char)
  | 0, _ => none
  | fuel + 1, cs =>
      (parseEntry cs).bind (fun pr =>
        match pr.2 with
        | c :: rest =>
            if c = '\x7d' then some ([pr.1], rest)
            else if c = ',' then
              match rest with
              | c2 :: rest2 =>
                  if c2 = ' ' then
                    (parsePairs fuel rest2).map (fun qr => (pr.1 :: qr.1, qr.2))
                  else none
              | [] => none
            else none
        | [] => none)

/-- `json.loads` for the dict grammar produced by `jsonDumps`;
malformed input gives `none` (Python raises). -/
def jsonLoads (cs : List Char) : Option (List (String × String)) :=
  match cs with
  | c :: c2 :: rest2 =>
      if c = '\x7b' then
        if c2 = '\x7d' ∧ rest2 = [] then some []
        else (parsePairs (c2 :: rest2).length (c2 :: rest2)).bind
          (fun pr => if pr.2 = [] then some pr.1 else none)
      else none
  | _ => none

/-! ### The tables -/

/-- A row of the `events` table.  The Python `type` column is called
`etype` (`type` is reserved in Lean); `body` holds the JSON text. -/
structure EventRow where
  id : Nat
  etype : String
  status : String
  modem_id : String
  timestamp : Nat
  body : List Char
  error : Option String
  created_at : Nat
  updated_at : Nat
deriving DecidableEq, Repr

/-- The updatable columns of the `modem_state` table. -/
inductive MField
  | balance
  | currency
  | network
  | signal_strength
  | last_balance_check
  | last_network_check
  | last_signal_check
  | is_online
  | last_online
deriving DecidableEq, Repr

/-- A value stored in a `modem_state` column. -/
inductive SqlValue
  | null
  | intV (n : Int)
  | textV (s : String)
deriving DecidableEq, Repr

/-- Column defaults of `modem_state`: everything NULL except
`is_online BOOLEAN DEFAULT 0`. -/
def modemDefault : MField → SqlValue
  | MField.is_online => SqlValue.intV 0
  | _ => SqlValue.null

/-- A row of the `modem_state` table. -/
structure ModemRow where
  modem_id : String
  fields : MField → SqlValue
  created_at : Nat
  updated_at : Nat

/-- The database state: the `events` rows, the sqlite AUTOINCREMENT
counter for their ids, and the `modem_state` rows. -/
structure Database where
  events : List EventRow
  next_id : Nat
  modems : List ModemRow

/-- A freshly initialised database (`_init_db`): empty tables,
AUTOINCREMENT ids starting at 1. -/
def emptyDatabase : Database :=
  { events := [], next_id := 1, modems := [] }

/-- `Database.add_event`: INSERT a new events row — Python's default
arguments are `status=EventStatus.PENDING` and `error=None` — storing
`json.dumps(body)`, with `timestamp = datetime.now()` and the
`created_at`/`updated_at` column defaults; returns the updated
database and `cursor.lastrowid`. -/
def add_event (db : Database) (event_type : EventType) (modem_id : String)
    (body : List (String × String)) (status : EventStatus) (error : Option String)
    (now : Nat) : Database × Nat :=
  ({ db with
      events := db.events ++
        [{ id := db.next_id
           etype := event_type.value
           status := status.value
           modem_id := modem_id
           timestamp := now
           body := jsonDumps body
           error := error
           created_at := now
           updated_at := now }]
      next_id := db.next_id + 1 },
   db.next_id)

/-- `Database.update_event_status`: `SET status = ?, error = ?,
updated_at = CURRENT_TIMESTAMP WHERE id = ?` — the Python `error`
parameter defaults to `None`. -/
def update_event_status (db : Database) (event_id : Nat) (status : EventStatus)
    (error : Option String) (now : Nat) : Database :=
  { db with events := db.events.map (fun r =>
      if r.id = event_id then
        { r with status := status.value, error := error, updated_at := now }
      else r) }

/-- Insertion into a list kept in descending-timestamp order, modelling
`ORDER BY timestamp DESC` (sqlite fixes no order among equal keys). -/
def insertByTsDesc (r : EventRow) : List EventRow → List EventRow
  | [] => [r]
  | x :: xs =>
      if x.timestamp < r.timestamp then r :: x :: xs
      else x :: insertByTsDesc r xs

/-- Sort the filtered rows by descending timestamp. -/
def sortByTsDesc (l : List EventRow) : List EventRow :=
  l.foldr insertByTsDesc []

/-- The dictionary `get_events` returns for one row: every column, with
the body deserialised by `json.loads`. -/
structure EventOut where
  id : Nat
  etype : String
  status : String
  modem_id : String
  timestamp : Nat
  body : Option (List (String × String))
  error : Option String
  created_at : Nat
  updated_at : Nat
deriving DecidableEq, Repr

/-- `event['body'] = json.loads(event['body'])` applied to a row. -/
def rowToEvent (r : EventRow) : EventOut :=
  { id := r.id
    etype := r.etype
    status := r.status
    modem_id := r.modem_id
    timestamp := r.timestamp
    body := jsonLoads r.body
    error := r.error
    created_at := r.created_at
    updated_at := r.updated_at }

/-- The WHERE clause of `Database.get_events`, one conjunct per
*truthy* filter argument (`if modem_id:` in Python is false for both
`None` and `""`; enum members are always truthy). -/
def eventFilter (modem_id : Option String) (event_type : Option EventType)
    (status : Option EventStatus) (r : EventRow) : Bool :=
  (match modem_id with
   | some m => if m ≠ "" then r.modem_id = m else true
   | none => true) &&
  (match event_type with
   | some t => r.etype = t.value
   | none => true) &&
  (match status with
   | some s => r.status = s.value
   | none => true)

/-- `Database.get_events`: rows matching the WHERE clause, `ORDER BY
timestamp DESC`, `LIMIT ?` (a negative sqlite LIMIT means no limit),
with `json.loads` run on each returned body. -/
def get_events (db : Database) (modem_id : Option String)
    (event_type : Option EventType) (status : Option EventStatus)
    (limit : Int) : List EventOut :=
  let filtered := db.events.filter (eventFilter modem_id event_type status)
  let sorted := sortByTsDesc filtered
  let limited := if limit < 0 then sorted else sorted.take limit.toNat
  limited.map rowToEvent

/-- Apply a SET assignment list to a row's columns (later assignments
win, as in SQL). -/
def applyFields (kw : List (MField × SqlValue)) (f : MField → SqlValue) :
    MField → SqlValue :=
  kw.foldl (fun g p => fun x => if x = p.1 then p.2 else g x) f

/-- `Database.update_modem_state`: INSERT a fresh row carrying only the
named fields (the other columns take their schema defaults) when the
modem id is unknown, otherwise UPDATE exactly the named fields and bump
`updated_at`. -/
def update_modem_state (db : Database) (modem_id : String)
    (kwargs : List (MField × SqlValue)) (now : Nat) : Database :=
  if db.modems.any (fun r => r.modem_id = modem_id) then
    { db with modems := db.modems.map (fun r =>
        if r.modem_id = modem_id then
          { r with fields := applyFields kwargs r.fields, updated_at := now }
        else r) }
  else
    { db with modems := db.modems ++
        [{ modem_id := modem_id
           fields := applyFields kwargs modemDefault
           created_at := now
           updated_at := now }] }

/-- `Database.get_modem_state`: the row for the modem id, if any. -/
def get_modem_state (db : Database) (modem_id : String) : Option ModemRow :=
  db.modems.find? (fun r => r.modem_id = modem_id)

/-! ### Association-list lemmas used for part reassembly -/

theorem lookup_cons_eq (k : Int) (v : String) (l : List (Int × String)) :
    List.lookup k ((k, v) :: l) = some v := by
  simp [List.lookup]

theorem lookup_cons_ne (k k₂ : Int) (v : String) (l : List (Int × String))
    (h : k ≠ k₂) : List.lookup k ((k₂, v) :: l) = List.lookup k l := by
  have hb : (k == k₂) = false := by
    simp [beq_eq_false_iff_ne, h]
  simp [List.lookup, hb]

theorem lookup_dictInsert_self (k : Int) (v : String) (l : List (Int × String)) :
    (dictInsert k v l).lookup k = some v := by
  induction l with
  | nil => exact lookup_cons_eq k v []
  | cons p rest ih =>
      obtain ⟨k₂, v₂⟩ := p
      by_cases h : k₂ = k
      · subst h
        simp only [dictInsert, if_pos rfl]
        exact lookup_cons_eq _ v rest
      · simp only [dictInsert, if_neg h]
        rw [lookup_cons_ne k k₂ v₂ _ (Ne.symm h)]
        exact ih

theorem lookup_dictInsert_ne (k k' : Int) (v : String) (l : List (Int × String))
    (h : k' ≠ k) : (dictInsert k v l).lookup k' = l.lookup k' := by
  induction l with
  | nil => simp [dictInsert, lookup_cons_ne k' k v [] h]
  | cons p rest ih =>
      obtain ⟨k₂, v₂⟩ := p
      by_cases h₂ : k₂ = k
      · subst h₂
        have hins : dictInsert k₂ v ((k₂, v₂) :: rest) = (k₂, v) :: rest := by
          simp [dictInsert]
        rw [hins, lookup_cons_ne k' k₂ v _ h, lookup_cons_ne k' k₂ v₂ _ h]
      · simp only [dictInsert, if_neg h₂]
        by_cases h₃ : k' = k₂
        · subst h₃
          rw [lookup_cons_eq, lookup_cons_eq]
        · rw [lookup_cons_ne k' k₂ v₂ _ h₃, lookup_cons_ne k' k₂ v₂ _ h₃]
          exact ih

theorem length_dictInsert_fresh (k : Int) (v : String) (l : List (Int × String))
    (h : l.lookup k = none) : (dictInsert k v l).length = l.length + 1 := by
  induction l with
  | nil => simp [dictInsert]
  | cons p rest ih =>
      obtain ⟨k₂, v₂⟩ := p
      by_cases h₂ : k₂ = k
      · subst h₂
        rw [lookup_cons_eq] at h
        exact absurd h (by simp)
      · rw [lookup_cons_ne k k₂ v₂ _ (Ne.symm h₂)] at h
        simp [dictInsert, h₂, ih h]

theorem lookup_eq_none_iff_keys (k : Int) (l : List (Int × String)) :
    l.lookup k = none ↔ k ∉ l.map Prod.fst := by
  induction l with
  | nil => simp [List.lookup]
  | cons p rest ih =>
      obtain ⟨k₂, v₂⟩ := p
      by_cases h : k = k₂
      · subst h
        rw [lookup_cons_eq]
        simp
      · rw [lookup_cons_ne k k₂ v₂ _ h]
        simp [h, ih]

theorem lookup_eq_some_of_mem (k : Int) (v : String) (l : List (Int × String))
    (hnd : (l.map Prod.fst).Nodup) (hmem : (k, v) ∈ l) :
    l.lookup k = some v := by
  induction l with
  | nil => simp at hmem
  | cons p rest ih =>
      obtain ⟨k₂, v₂⟩ := p
      simp at hnd
      rcases List.mem_cons.mp hmem with h | h
      · obtain ⟨h1, h2⟩ := Prod.mk.injEq .. ▸ h
        subst h1; subst h2
        exact lookup_cons_eq k v rest
      · have hk : k ≠ k₂ := by
          intro hkeq
          subst hkeq
          exact hnd.1 v h
        rw [lookup_cons_ne k k₂ v₂ _ hk]
        exact ih hnd.2 h

theorem mem_of_lookup_eq_some (k : Int) (v : String) (l : List (Int × String))
    (h : l.lookup k = some v) : (k, v) ∈ l := by
  induction l with
  | nil => simp [List.lookup] at h
  | cons p rest ih =>
      obtain ⟨k₂, v₂⟩ := p
      by_cases hk : k = k₂
      · subst hk
        rw [lookup_cons_eq] at h
        simp at h
        simp [h]
      · rw [lookup_cons_ne k k₂ v₂ _ hk] at h
        exact List.mem_cons_of_mem _ (ih h)

theorem lookup_perm_eq (l₁ l₂ : List (Int × String)) (k : Int)
    (hnd : (l₁.map Prod.fst).Nodup) (hp : l₁.Perm l₂) :
    l₁.lookup k = l₂.lookup k := by
  have hnd₂ : (l₂.map Prod.fst).Nodup := ((hp.map Prod.fst).nodup_iff).mp hnd
  cases h : l₁.lookup k with
  | none =>
      have hk : k ∉ l₁.map Prod.fst := (lookup_eq_none_iff_keys k l₁).mp h
      have hk₂ : k ∉ l₂.map Prod.fst := fun hc => hk ((hp.map Prod.fst).mem_iff.mpr hc)
      exact ((lookup_eq_none_iff_keys k l₂).mpr hk₂).symm
  | some v =>
      have hmem : (k, v) ∈ l₂ := hp.mem_iff.mp (mem_of_lookup_eq_some k v l₁ h)
      exact (lookup_eq_some_of_mem k v l₂ hnd₂ hmem).symm

/-! ### Behaviour of a run of successful `add_part` calls -/

theorem addParts_spec (rem : List (Int × String)) :
    ∀ s : SMS,
    (rem.map Prod.fst).Nodup →
    (∀ p ∈ rem, 1 ≤ p.1) →
    (∀ p ∈ rem, p.1 ≤ s.total_parts) →
    (∀ p ∈ rem, s.parts.lookup p.1 = none) →
    (s.addParts rem).2 = none ∧
    (s.addParts rem).1.total_parts = s.total_parts ∧
    (s.addParts rem).1.parts.length = s.parts.length + rem.length ∧
    (∀ k, (s.addParts rem).1.parts.lookup k =
        ((rem.lookup k).elim (s.parts.lookup k) some)) ∧
    (s.addParts rem).1.text = (rem.lookup 1).getD s.text := by
  induction rem with
  | nil =>
      intro s _ _ _ _
      refine ⟨rfl, rfl, by simp [SMS.addParts], fun k => by simp [List.lookup, SMS.addParts], ?_⟩
      simp [List.lookup, SMS.addParts]
  | cons p rest ih =>
      intro s hnd h1 htot hfresh
      obtain ⟨k, v⟩ := p
      have hk1 : (1 : Int) ≤ k := h1 (k, v) (List.mem_cons_self _ _)
      have hktot : k ≤ s.total_parts := htot (k, v) (List.mem_cons_self _ _)
      have hkfresh : s.parts.lookup k = none := hfresh (k, v) (List.mem_cons_self _ _)
      have hnd₂ : k ∉ rest.map Prod.fst ∧ (rest.map Prod.fst).Nodup := by
        rw [List.map_cons, List.nodup_cons] at hnd
        exact hnd
      have hknotin : k ∉ rest.map Prod.fst := hnd₂.1
      -- the head call succeeds and produces the intermediate state s₃
      have hsucc : s.add_part k v =
          ({ text := if k = 1 then v else s.text
             total_parts := s.total_parts
             parts := dictInsert k v s.parts }, none) := by
        simp only [SMS.add_part, if_neg (by omega : ¬ k < 1), if_neg (by omega : ¬ k > s.total_parts)]
        by_cases hk : k = 1 <;> simp [hk]
      set s₃ : SMS :=
        { text := if k = 1 then v else s.text
          total_parts := s.total_parts
          parts := dictInsert k v s.parts } with hs₃
      have hstep : s.addParts ((k, v) :: rest) = s₃.addParts rest := by
        simp [SMS.addParts, hsucc]
      have ihs := ih s₃ hnd₂.2
        (fun q hq => h1 q (List.mem_cons_of_mem _ hq))
        (fun q hq => by
          show q.1 ≤ s.total_parts
          exact htot q (List.mem_cons_of_mem _ hq))
        (fun q hq => by
          show (dictInsert k v s.parts).lookup q.1 = none
          have hqk : q.1 ≠ k := by
            intro hc
            exact hknotin (hc ▸ List.mem_map_of_mem Prod.fst hq)
          rw [lookup_dictInsert_ne k q.1 v s.parts hqk]
          exact hfresh q (List.mem_cons_of_mem _ hq))
      obtain ⟨ie, itot, ilen, ilook, itext⟩ := ihs
      rw [hstep]
      refine ⟨ie, by rw [itot], ?_, ?_, ?_⟩
      · rw [ilen]
        have : s₃.parts.length = s.parts.length + 1 :=
          length_dictInsert_fresh k v s.parts hkfresh
        rw [this]
        simp [List.length_cons]
        omega
      · intro k'
        rw [ilook k']
        by_cases hk' : k' = k
        · subst hk'
          have hrest : rest.lookup k' = none :=
            (lookup_eq_none_iff_keys k' rest).mpr hknotin
          have hins : s₃.parts.lookup k' = some v := lookup_dictInsert_self k' v s.parts
          rw [hrest, hins, lookup_cons_eq]
          simp
        · have hins : s₃.parts.lookup k' = s.parts.lookup k' :=
            lookup_dictInsert_ne k k' v s.parts hk'
          rw [lookup_cons_ne k' k v rest hk', hins]
      · rw [itext]
        by_cases hk : k = 1
        · subst hk
          have hrest : rest.lookup 1 = none :=
            (lookup_eq_none_iff_keys 1 rest).mpr hknotin
          rw [hrest, lookup_cons_eq]
          simp [hs₃]
        · have htxt : s₃.text = s.text := by simp [hs₃, hk]
          rw [lookup_cons_ne 1 k v rest (Ne.symm hk), htxt]

/-! ### The canonical part list and its properties -/

theorem canonParts_keys_nodup (ts : List String) :
    ((canonParts ts).map Prod.fst).Nodup := by
  rw [canonParts, List.map_map]
  exact List.Nodup.map (fun i j hij => by simpa using hij) (List.nodup_range _)

theorem canonParts_mem (ts : List String) (p : Int × String) (hp : p ∈ canonParts ts) :
    ∃ i : Nat, i < ts.length ∧ p = ((i : Int) + 1, ts.getD i "") := by
  rw [canonParts] at hp
  obtain ⟨i, hi, rfl⟩ := List.mem_map.mp hp
  exact ⟨i, List.mem_range.mp hi, rfl⟩

theorem canonParts_lookup (ts : List String) (i : Nat) (hi : i < ts.length) :
    (canonParts ts).lookup ((i : Int) + 1) = some (ts.getD i "") :=
  lookup_eq_some_of_mem _ _ _ (canonParts_keys_nodup ts)
    (List.mem_map.mpr ⟨i, List.mem_range.mpr hi, rfl⟩)

theorem canonParts_length (ts : List String) :
    (canonParts ts).length = ts.length := by
  simp [canonParts]

theorem mapM_lookup_eq (l : List Int) (f : Int → Option String) (g : Int → String) :
    (∀ x ∈ l, f x = some (g x)) → l.mapM f = some (l.map g) := by
  rw [← List.mapM'_eq_mapM]
  induction l with
  | nil => intro _; rfl
  | cons a as ih =>
      intro h
      have ha := h a (List.mem_cons_self a as)
      have has : ∀ x ∈ as, f x = some (g x) := fun x hx => h x (List.mem_cons_of_mem _ hx)
      simp [List.mapM', ha, ih has]

theorem map_getD_range (ts : List String) :
    (List.range ts.length).map (fun i => ts.getD i "") = ts := by
  apply List.ext_get (by simp)
  intro i h1 h2
  simp [List.getD, List.getElem?_eq_getElem h2]

theorem join_singleton (a : String) : String.join [a] = a := by
  cases a with
  | mk data => rfl

/-- Claim C4: for a message declared with total `ts.length ≥ 1`, any
ordering of `add_part i tsᵢ` calls covering the distinct parts
`1..ts.length` (a permutation of the canonical list) raises no error,
makes `is_part_complete` true, and makes `get_concatenated_text` equal
to the concatenation of the parts in ascending index order — the result
is independent of the insertion order. -/
theorem reassembly_order_independent (ts : List String) (t₀ : String)
    (l : List (Int × String)) (hn : 1 ≤ ts.length)
    (hperm : l.Perm (canonParts ts)) :
    ((mkSMS t₀ (some (ts.length : Int))).addParts l).2 = none ∧
    ((mkSMS t₀ (some (ts.length : Int))).addParts l).1.is_part_complete = true ∧
    ((mkSMS t₀ (some (ts.length : Int))).addParts l).1.get_concatenated_text
      = String.join ts := by
  have hnodup : (l.map Prod.fst).Nodup :=
    ((hperm.map Prod.fst).nodup_iff).mpr (canonParts_keys_nodup ts)
  obtain ⟨he, htotal, hlen, hlook, htext⟩ :=
    addParts_spec l (mkSMS t₀ (some (ts.length : Int))) hnodup
      (fun p hp => by
        obtain ⟨i, hi, rfl⟩ := canonParts_mem ts p (hperm.mem_iff.mp hp)
        show (1 : Int) ≤ (i : Int) + 1
        omega)
      (fun p hp => by
        obtain ⟨i, hi, rfl⟩ := canonParts_mem ts p (hperm.mem_iff.mp hp)
        show (i : Int) + 1 ≤ (ts.length : Int)
        omega)
      (fun p hp => rfl)
  have htot2 : ((mkSMS t₀ (some (ts.length : Int))).addParts l).1.total_parts
      = (ts.length : Int) := htotal
  have hlen2 : ((mkSMS t₀ (some (ts.length : Int))).addParts l).1.parts.length
      = ts.length := by
    rw [hlen, hperm.length_eq, canonParts_length]
    simp [mkSMS]
  have hlookup : ∀ i : Nat, i < ts.length →
      ((mkSMS t₀ (some (ts.length : Int))).addParts l).1.parts.lookup ((i : Int) + 1)
        = some (ts.getD i "") := by
    intro i hi
    rw [hlook, lookup_perm_eq l (canonParts ts) _ hnodup hperm, canonParts_lookup ts i hi]
    rfl
  have htext1 : ((mkSMS t₀ (some (ts.length : Int))).addParts l).1.text
      = ts.getD 0 "" := by
    rw [htext, lookup_perm_eq l (canonParts ts) 1 hnodup hperm]
    have h01 : (1 : Int) = ((0 : Nat) : Int) + 1 := by norm_num
    rw [h01, canonParts_lookup ts 0 (by omega)]
    rfl
  rcases Nat.eq_or_lt_of_le hn with h1 | h2
  · -- single-part message
    obtain ⟨a, ha⟩ := List.length_eq_one.mp h1.symm
    have hmult : ((mkSMS t₀ (some (ts.length : Int))).addParts l).1.is_multipart
        = false := by
      simp only [SMS.is_multipart]
      rw [hlen2, htot2, ← h1]
      decide
    have hcomp : ((mkSMS t₀ (some (ts.length : Int))).addParts l).1.is_part_complete
        = true := by
      simp only [SMS.is_part_complete, hmult]
      simp
    refine ⟨he, hcomp, ?_⟩
    have hcc : ((mkSMS t₀ (some (ts.length : Int))).addParts l).1.get_concatenated_text
        = ((mkSMS t₀ (some (ts.length : Int))).addParts l).1.text := by
      simp only [SMS.get_concatenated_text, hmult]
      simp
    rw [hcc, htext1, ha, join_singleton]
    rfl
  · -- genuinely multi-part message
    have hmult : ((mkSMS t₀ (some (ts.length : Int))).addParts l).1.is_multipart
        = true := by
      simp only [SMS.is_multipart, htot2, Bool.or_eq_true, decide_eq_true_eq]
      right
      omega
    have hcomp : ((mkSMS t₀ (some (ts.length : Int))).addParts l).1.is_part_complete
        = true := by
      simp only [SMS.is_part_complete, hmult]
      rw [if_neg (by simp), hlen2, htot2]
      simp
    refine ⟨he, hcomp, ?_⟩
    have hrange : pyRange1 ((ts.length : Int))
        = (List.range ts.length).map (fun (i : Nat) => (i : Int) + 1) := by
      simp [pyRange1]
    have hmapm : (pyRange1 (((mkSMS t₀ (some (ts.length : Int))).addParts l).1.total_parts)).mapM
        (fun i => ((mkSMS t₀ (some (ts.length : Int))).addParts l).1.parts.lookup i)
        = some ts := by
      rw [htot2, hrange]
      rw [mapM_lookup_eq ((List.range ts.length).map (fun (i : Nat) => (i : Int) + 1))
        (fun i => ((mkSMS t₀ (some (ts.length : Int))).addParts l).1.parts.lookup i)
        (fun k => ts.getD (k - 1).toNat "")
        (by
          intro x hx
          obtain ⟨i, hi, rfl⟩ := List.mem_map.mp hx
          show List.lookup ((i : Int) + 1)
              ((mkSMS t₀ (some (ts.length : Int))).addParts l).1.parts
            = some (ts.getD ((i : Int) + 1 - 1).toNat "")
          rw [hlookup i (List.mem_range.mp hi)]
          have hidx : ((i : Int) + 1 - 1).toNat = i := by omega
          rw [hidx])]
      rw [List.map_map]
      have hcomp2 : ((fun k : Int => ts.getD (k - 1).toNat "") ∘ fun i : Nat => (i : Int) + 1)
          = fun i => ts.getD i "" := by
        funext i
        have hidx : ((i : Int) + 1 - 1).toNat = i := by omega
        simp only [Function.comp]
        rw [hidx]
      rw [hcomp2, map_getD_range]
    simp only [SMS.get_concatenated_text, hmult, hcomp, hmapm]
    simp

/-- Witness for C4: submitting part 2, then part 1, then part 3 of
`["Bro", "wn ", "Fox"]` with total 3 raises nothing, completes the
message and reassembles `"Brown Fox"`. -/
theorem reassembly_order_independent_witness :
    ((mkSMS "x" (some 3)).addParts [(2, "wn "), (1, "Bro"), (3, "Fox")]).2 = none ∧
    ((mkSMS "x" (some 3)).addParts [(2, "wn "), (1, "Bro"), (3, "Fox")]).1.is_part_complete
      = true ∧
    ((mkSMS "x" (some 3)).addParts [(2, "wn "), (1, "Bro"), (3, "Fox")]).1.get_concatenated_text
      = "Brown Fox" := by
  have h := reassembly_order_independent ["Bro", "wn ", "Fox"] "x"
    [(2, "wn "), (1, "Bro"), (3, "Fox")] (by decide) (by decide)
  exact ⟨h.1, h.2.1, h.2.2.trans (by decide)⟩

/-- Claim C5: `add_part part_number text` raises an invalid-argument
error exactly when `part_number < 1`, and a raising call leaves the
message state (text, total_parts, parts) unchanged. -/
theorem add_part_invalid_argument (s : SMS) (n : Int) (t : String) :
    ((s.add_part n t).2.isSome = true ↔ n < 1) ∧
    (n < 1 → (s.add_part n t).1 = s) := by
  constructor
  · constructor
    · intro h
      by_contra hn
      simp [SMS.add_part, hn] at h
    · intro h
      simp [SMS.add_part, h]
  · intro h
    simp [SMS.add_part, h]

/-- Witness for C5: `add_part 0 "x"` raises and leaves the message
untouched. -/
theorem add_part_invalid_argument_witness :
    ((mkSMS "" none).add_part 0 "x").2.isSome = true ∧
    ((mkSMS "" none).add_part 0 "x").1 = mkSMS "" none := by
  refine ⟨?_, (add_part_invalid_argument (mkSMS "" none) 0 "x").2 (by decide)⟩
  exact (add_part_invalid_argument (mkSMS "" none) 0 "x").1.mpr (by decide)

/-- Claim C6: for `part_number ≥ 1`, `add_part` succeeds, raises
`total_parts` to `part_number` exactly when it exceeds the current
total, stores the text under key `part_number`, and overwrites the
canonical `text` exactly when `part_number = 1`. -/
theorem add_part_stores_part (s : SMS) (n : Int) (t : String) (h : 1 ≤ n) :
    (s.add_part n t).2 = none ∧
    (s.add_part n t).1.total_parts = (if s.total_parts < n then n else s.total_parts) ∧
    (s.add_part n t).1.parts.lookup n = some t ∧
    (s.add_part n t).1.text = (if n = 1 then t else s.text) := by
  have hn : ¬ n < 1 := by omega
  by_cases h1 : n = 1
  · subst h1
    simp [SMS.add_part, hn, lookup_dictInsert_self]
  · simp [SMS.add_part, hn, h1, lookup_dictInsert_self]

/-- Witness for C6: adding part 2 to a message declared with one total
part raises the total to 2, stores the part, and keeps the text. -/
theorem add_part_stores_part_witness :
    ((mkSMS "a" (some 1)).add_part 2 "b").2 = none ∧
    ((mkSMS "a" (some 1)).add_part 2 "b").1.total_parts = 2 ∧
    ((mkSMS "a" (some 1)).add_part 2 "b").1.parts.lookup 2 = some "b" ∧
    ((mkSMS "a" (some 1)).add_part 2 "b").1.text = "a" := by
  have h := add_part_stores_part (mkSMS "a" (some 1)) 2 "b" (by decide)
  exact ⟨h.1, h.2.1.trans (by decide), h.2.2.1, h.2.2.2.trans (by decide)⟩

/-- Claim C8: a message constructed with `total_parts` absent behaves
exactly as `total_parts = 1`: it is not multipart and
`get_concatenated_text` returns the text unchanged; conversely
`is_multipart` is true for any message with declared `total_parts > 1`,
even before any further part arrives. -/
theorem default_single_part_behaviour :
    (∀ t : String, mkSMS t none = mkSMS t (some 1) ∧
        (mkSMS t none).is_multipart = false ∧
        (mkSMS t none).get_concatenated_text = t) ∧
    (∀ s : SMS, 1 < s.total_parts → s.is_multipart = true) := by
  constructor
  · intro t
    exact ⟨rfl, rfl, rfl⟩
  · intro s hs
    simp only [SMS.is_multipart, Bool.or_eq_true, decide_eq_true_eq]
    right
    exact hs

/-- Witness for C8: concrete instances of both halves of the claim. -/
theorem default_single_part_behaviour_witness :
    (mkSMS "hello" none).is_multipart = false ∧
    (mkSMS "hello" none).get_concatenated_text = "hello" ∧
    (mkSMS "a" (some 2)).is_multipart = true := by
  refine ⟨(default_single_part_behaviour.1 "hello").2.1,
          (default_single_part_behaviour.1 "hello").2.2,
          default_single_part_behaviour.2 (mkSMS "a" (some 2)) (by decide)⟩

/-- Claim C1 fails on the code: the transport round trip is not the
identity on 8-bit text.  For the one-character text `"Ð"` (code point
0xD0 = 208, latin1-encodable) the server-side `to_dict` produces the
base64 string `"0A=="`, but the client-side `_decode_text` returns an
error instead of the original text, because it decodes the base64
payload bytes with the 7-bit `'ascii'` codec; and for genuinely
Cyrillic text such as `"П"` (code point 0x41F ≥ 256) even the
server-side `encode('latin1')` inside `to_dict` raises. -/
theorem transport_roundtrip_fails :
    (to_dict_text (mkSMS "Ð" none)) = some (strCodes "0A==") ∧
    (to_dict_text (mkSMS "Ð" none)).bind decode_text = none ∧
    to_dict_text (mkSMS "П" none) = none := by
  refine ⟨by decide, by decide, by decide⟩

/-- Counterexample to Claim C3: when `get_delivery_status` answers
false on the first three calls and true on the fourth, `send_sms`
makes four poll calls (at times 0, 3, 6 and 9), not exactly three. -/
theorem send_sms_four_polls_counterexample :
    send_sms (fun k => decide (3 ≤ k)) "id1" true 10 = some ("id1", [0, 3, 6, 9]) ∧
    (send_sms (fun k => decide (3 ≤ k)) "id1" true 10).map
      (fun r => r.2.length) ≠ some 3 := by
  constructor <;> decide

theorem pollTimes_succ (status : Nat → Bool) (fuel k t : Nat) :
    pollTimes status (fuel + 1) k t =
      if status k then some [t]
      else (pollTimes status fuel (k + 1) (t + 3)).map (fun ts => t :: ts) := rfl

/-- Claim C3 amended: with delivery confirmation requested and
`get_delivery_status` false on the first three calls and true on the
fourth, `send_sms` makes exactly four poll calls — the three failed
ones and the final successful one — at times 0, 3, 6, 9 (consecutive
calls separated by the fixed 3-unit sleep) and then returns the
message id. -/
theorem send_sms_poll_schedule (status : Nat → Bool) (sms_id : String) (fuel : Nat)
    (h0 : status 0 = false) (h1 : status 1 = false) (h2 : status 2 = false)
    (h3 : status 3 = true) (hf : 4 ≤ fuel) :
    send_sms status sms_id true fuel = some (sms_id, [0, 3, 6, 9]) := by
  obtain ⟨m, rfl⟩ : ∃ m, fuel = m + 4 := ⟨fuel - 4, by omega⟩
  have e4 : m + 4 = (m + 3) + 1 := rfl
  have e3 : m + 3 = (m + 2) + 1 := rfl
  have e2 : m + 2 = (m + 1) + 1 := rfl
  have p3 : pollTimes status (m + 1) 3 9 = some [9] := by
    rw [pollTimes_succ, h3]
    simp
  have p2 : pollTimes status (m + 2) 2 6 = some [6, 9] := by
    rw [e2, pollTimes_succ, h2]
    simp [p3]
  have p1 : pollTimes status (m + 3) 1 3 = some [3, 6, 9] := by
    rw [e3, pollTimes_succ, h1]
    simp [p2]
  have p0 : pollTimes status (m + 4) 0 0 = some [0, 3, 6, 9] := by
    rw [e4, pollTimes_succ, h0]
    simp [p1]
  simp [send_sms, p0]

/-- Witness for the amended C3 at a concrete status oracle. -/
theorem send_sms_poll_schedule_witness :
    send_sms (fun k => decide (3 ≤ k)) "id2" true 4 = some ("id2", [0, 3, 6, 9]) :=
  send_sms_poll_schedule (fun k => decide (3 ≤ k)) "id2" 4 rfl rfl rfl rfl (by decide)

/-- Counterexample to Claim C2: an event stored with status processed
is moved back to pending by a later `update_event_status` call — the
database layer does not prevent the regression. -/
theorem processed_to_pending_counterexample :
    ((add_event emptyDatabase EventType.incoming_sms "m1" []
        EventStatus.processed none 1).1.events.map (fun r => r.status))
      = ["processed"] ∧
    ((update_event_status
        (add_event emptyDatabase EventType.incoming_sms "m1" []
          EventStatus.processed none 1).1
        (add_event emptyDatabase EventType.incoming_sms "m1" []
          EventStatus.processed none 1).2
        EventStatus.pending none 2).events.map (fun r => r.status))
      = ["pending"] := by
  constructor <;> decide

/-- Claim C2 amended: `update_event_status` overwrites the stored
status unconditionally with the given value; in particular a later
call with status pending moves an event whose status is processed back
to pending — forward monotonicity is not enforced by the layer. -/
theorem update_event_status_overwrites (db : Database) (event_id : Nat)
    (st : EventStatus) (error : Option String) (now : Nat) :
    ∀ r ∈ (update_event_status db event_id st error now).events,
      r.id = event_id → r.status = st.value := by
  intro r hr hid
  simp only [update_event_status] at hr
  obtain ⟨r₀, hr₀, hcase⟩ := List.mem_map.mp hr
  by_cases h : r₀.id = event_id
  · rw [if_pos h] at hcase
    rw [← hcase]
  · rw [if_neg h] at hcase
    rw [← hcase] at hid
    exact absurd hid h

/-- Witness for the amended C2: a processed event concretely ends up
pending after the later call. -/
theorem update_event_status_overwrites_witness :
    ({ id := 1, etype := "incoming_sms", status := "pending", modem_id := "m1",
       timestamp := 1, body := jsonDumps [], error := none, created_at := 1,
       updated_at := 2 } : EventRow).status = "pending" :=
  update_event_status_overwrites
    (add_event emptyDatabase EventType.incoming_sms "m1" []
      EventStatus.processed none 1).1
    1 EventStatus.pending none 2
    { id := 1, etype := "incoming_sms", status := "pending", modem_id := "m1",
      timestamp := 1, body := jsonDumps [], error := none, created_at := 1,
      updated_at := 2 }
    (by decide) (by decide)

/-- Claim C10: `update_event_status` called with the error argument
omitted (Python default `None`) sets the matching event's status,
overwrites its stored error with NULL — erasing any previously
recorded error text — and bumps `updated_at`; all other fields of the
matching row, and all other rows, are unchanged. -/
theorem update_event_status_erases_error (db : Database) (event_id : Nat)
    (st : EventStatus) (now : Nat) (i : Nat) (r₀ : EventRow)
    (h : db.events.get? i = some r₀) :
    (update_event_status db event_id st none now).events.length = db.events.length ∧
    ∃ r₁, (update_event_status db event_id st none now).events.get? i = some r₁ ∧
      (r₀.id = event_id →
        r₁ = { r₀ with status := st.value, error := none, updated_at := now }) ∧
      (r₀.id ≠ event_id → r₁ = r₀) := by
  constructor
  · simp [update_event_status]
  · refine ⟨if r₀.id = event_id
        then { r₀ with status := st.value, error := none, updated_at := now }
        else r₀, ?_, ?_, ?_⟩
    · simp only [update_event_status]
      rw [List.get?_map, h]
      rfl
    · intro hid
      rw [if_pos hid]
    · intro hid
      rw [if_neg hid]

/-- Witness for C10: a failed event with recorded error text "boom" is
set to processed with the error column erased and `updated_at`
bumped. -/
theorem update_event_status_erases_error_witness :
    (update_event_status
        (add_event emptyDatabase EventType.outgoing_sms "m1" []
          EventStatus.failed (some "boom") 1).1
        1 EventStatus.processed none 2).events.get? 0
      = some { id := 1, etype := "outgoing_sms", status := "processed",
               modem_id := "m1", timestamp := 1, body := jsonDumps [],
               error := none, created_at := 1, updated_at := 2 } := by
  obtain ⟨hlen, r₁, h1, h2, h3⟩ := update_event_status_erases_error
    (add_event emptyDatabase EventType.outgoing_sms "m1" []
      EventStatus.failed (some "boom") 1).1
    1 EventStatus.processed 2 0
    { id := 1, etype := "outgoing_sms", status := "failed", modem_id := "m1",
      timestamp := 1, body := jsonDumps [], error := some "boom",
      created_at := 1, updated_at := 1 }
    (by decide)
  rw [h1, h2 (by decide)]
  rfl

/-! ### Round trip of the modelled json fragment -/

theorem quote_not_mem_of_plain (s : String) (h : plainStr s = true) :
    '"' ∉ s.data := by
  intro hmem
  have hc := List.all_eq_true.mp h _ hmem
  have hfalse : plainChar '"' = false := by decide
  rw [hfalse] at hc
  exact absurd hc (by decide)

theorem parseStr_append (s rest : List Char) (h : '"' ∉ s) :
    parseStr (s ++ '"' :: rest) = some (s, rest) := by
  induction s with
  | nil => simp [parseStr]
  | cons c cs ih =>
      have hc : ¬ (c = '"') := by
        intro hc
        exact h (by rw [hc]; exact List.mem_cons_self _ _)
      have htail : '"' ∉ cs := fun hx => h (List.mem_cons_of_mem _ hx)
      simp [parseStr, hc, ih htail]

theorem parseEntry_dump (k v : String) (rest : List Char)
    (hk : '"' ∉ k.data) (hv : '"' ∉ v.data) :
    parseEntry (dumpEntry (k, v) ++ rest) = some ((k, v), rest) := by
  have e : dumpEntry (k, v) ++ rest
      = '"' :: (k.data ++ '"' :: (':' :: ' ' :: '"' :: (v.data ++ '"' :: rest))) := by
    simp [dumpEntry]
  rw [e]
  simp only [parseEntry, if_pos rfl]
  rw [parseStr_append k.data _ hk]
  simp only [Option.some_bind]
  rw [parseStr_append v.data rest hv]
  rfl

theorem parsePairs_dump (b : List (String × String)) :
    ∀ (fuel : Nat) (rest : List Char), b ≠ [] → BodyGood b = true →
    b.length ≤ fuel →
    parsePairs fuel (dumpPairs b ++ '\x7d' :: rest) = some (b, rest) := by
  induction b with
  | nil =>
      intro fuel rest hne _ _
      exact absurd rfl hne
  | cons p tl ih =>
      intro fuel rest _ hgood hfuel
      obtain ⟨k, v⟩ := p
      have hgp := List.all_eq_true.mp hgood (k, v) (List.mem_cons_self _ _)
      rw [Bool.and_eq_true] at hgp
      have hk := quote_not_mem_of_plain k hgp.1
      have hv := quote_not_mem_of_plain v hgp.2
      obtain ⟨f, rfl⟩ : ∃ f, fuel = f + 1 := ⟨fuel - 1, by simp at hfuel; omega⟩
      cases tl with
      | nil =>
          show parsePairs (f + 1) (dumpEntry (k, v) ++ '\x7d' :: rest)
            = some ([(k, v)], rest)
          simp only [parsePairs]
          rw [parseEntry_dump k v _ hk hv]
          simp
      | cons q tl2 =>
          show parsePairs (f + 1)
              ((dumpEntry (k, v) ++ ',' :: ' ' :: dumpPairs (q :: tl2)) ++ '\x7d' :: rest)
            = some ((k, v) :: q :: tl2, rest)
          have e : (dumpEntry (k, v) ++ ',' :: ' ' :: dumpPairs (q :: tl2)) ++ '\x7d' :: rest
              = dumpEntry (k, v) ++ ',' :: ' ' :: (dumpPairs (q :: tl2) ++ '\x7d' :: rest) := by
            simp
          rw [e]
          simp only [parsePairs]
          rw [parseEntry_dump k v _ hk hv]
          have hgood2 : BodyGood (q :: tl2) = true := by
            simp only [BodyGood, List.all_cons, Bool.and_eq_true] at hgood ⊢
            exact hgood.2
          have hrec := ih f rest (by simp) hgood2 (by simp at hfuel ⊢; omega)
          simp [hrec]

theorem length_le_dumpPairs_length (b : List (String × String)) :
    b.length ≤ (dumpPairs b).length := by
  induction b with
  | nil => simp [dumpPairs]
  | cons p tl ih =>
      cases tl with
      | nil =>
          obtain ⟨k, v⟩ := p
          show 1 ≤ (dumpEntry (k, v)).length
          simp [dumpEntry]
      | cons q tl2 =>
          show (q :: tl2).length + 1
            ≤ (dumpEntry p ++ ',' :: ' ' :: dumpPairs (q :: tl2)).length
          have h1 : (q :: tl2).length ≤ (dumpPairs (q :: tl2)).length := ih
          simp only [List.length_append, List.length_cons] at h1 ⊢
          omega

theorem dumpPairs_cons_head (p : String × String) (tl : List (String × String)) :
    ∃ Y, dumpPairs (p :: tl) = '"' :: Y := by
  obtain ⟨k, v⟩ := p
  cases tl with
  | nil => exact ⟨_, rfl⟩
  | cons q tl2 => exact ⟨_, rfl⟩

theorem jsonLoads_dumps (b : List (String × String)) (hgood : BodyGood b = true) :
    jsonLoads (jsonDumps b) = some b := by
  cases b with
  | nil => rfl
  | cons p tl =>
      obtain ⟨Y, hY⟩ := dumpPairs_cons_head p tl
      have e : jsonDumps (p :: tl) = '\x7b' :: '"' :: (Y ++ ['\x7d']) := by
        simp [jsonDumps, hY]
      rw [e]
      simp only [jsonLoads]
      rw [if_pos trivial, if_neg (by simp)]
      have e2 : ('"' :: (Y ++ ['\x7d']) : List Char) = dumpPairs (p :: tl) ++ '\x7d' :: [] := by
        simp [hY]
      have hfuel : (p :: tl).length ≤ (dumpPairs (p :: tl) ++ '\x7d' :: []).length := by
        have h1 := length_le_dumpPairs_length (p :: tl)
        simp only [List.length_append, List.length_cons] at h1 ⊢
        omega
      have hparse : parsePairs (('"' :: (Y ++ ['\x7d'])).length) ('"' :: (Y ++ ['\x7d']))
          = some (p :: tl, []) := by
        rw [e2]
        exact parsePairs_dump (p :: tl) _ [] (by simp) hgood hfuel
      rw [hparse]
      simp

/-! ### `ORDER BY timestamp DESC` -/

theorem insertByTsDesc_perm (r : EventRow) (l : List EventRow) :
    List.Perm (insertByTsDesc r l) (r :: l) := by
  induction l with
  | nil => exact List.Perm.refl _
  | cons x xs ih =>
      by_cases h : x.timestamp < r.timestamp
      · simp only [insertByTsDesc, if_pos h]
        exact List.Perm.refl _
      · simp only [insertByTsDesc, if_neg h]
        exact (List.Perm.cons x ih).trans (List.Perm.swap r x xs)

theorem sortByTsDesc_perm (l : List EventRow) :
    List.Perm (sortByTsDesc l) l := by
  induction l with
  | nil => exact List.Perm.refl _
  | cons x xs ih =>
      exact (insertByTsDesc_perm x (sortByTsDesc xs)).trans (List.Perm.cons x ih)

theorem insertByTsDesc_sorted (r : EventRow) (l : List EventRow)
    (h : l.Pairwise (fun a b => b.timestamp ≤ a.timestamp)) :
    (insertByTsDesc r l).Pairwise (fun a b => b.timestamp ≤ a.timestamp) := by
  induction l with
  | nil => simp [insertByTsDesc]
  | cons x xs ih =>
      rcases List.pairwise_cons.mp h with ⟨hx, hxs⟩
      by_cases hlt : x.timestamp < r.timestamp
      · simp only [insertByTsDesc, if_pos hlt]
        refine List.pairwise_cons.mpr ⟨?_, h⟩
        intro y hy
        rcases List.mem_cons.mp hy with rfl | hy2
        · omega
        · have := hx y hy2
          omega
      · simp only [insertByTsDesc, if_neg hlt]
        refine List.pairwise_cons.mpr ⟨?_, ih hxs⟩
        intro y hy
        have hmem : y ∈ r :: xs := (insertByTsDesc_perm r xs).mem_iff.mp hy
        rcases List.mem_cons.mp hmem with rfl | hy2
        · omega
        · exact hx y hy2

theorem sortByTsDesc_sorted (l : List EventRow) :
    (sortByTsDesc l).Pairwise (fun a b => b.timestamp ≤ a.timestamp) := by
  induction l with
  | nil => simp [sortByTsDesc]
  | cons x xs ih => exact insertByTsDesc_sorted x (sortByTsDesc xs) ih

/-- Counterexample to Claim C9: supplying the empty string as the
modem_id filter is silently dropped (Python truthiness: `if modem_id:`
is false for `""`), so a returned event need not satisfy a supplied
filter. -/
theorem get_events_empty_filter_counterexample :
    ¬ (∀ e ∈ get_events
          (add_event emptyDatabase EventType.incoming_sms "m1" [("k", "v")]
            EventStatus.pending none 5).1
          (some "") none none 100,
        e.modem_id = "") := by
  decide

/-- Claim C9 amended: `get_events` applies its optional filters
conjunctively, except that a supplied empty-string modem_id is treated
as absent (the Python truthiness test skips it): every returned event
satisfies every supplied non-empty filter; the list is ordered
most-recent-first by event timestamp; for a non-negative limit it has
at most `limit` entries (the default is 100; a negative sqlite LIMIT
means no limit); and when every stored body is the serialisation of a
dict of the modelled json fragment, each returned event's body is the
original structured dict deserialised back from the stored JSON
text. -/
theorem get_events_spec (db : Database) (modem_id : Option String)
    (event_type : Option EventType) (status : Option EventStatus) (limit : Int) :
    (∀ e ∈ get_events db modem_id event_type status limit,
        (∀ m, modem_id = some m → m ≠ "" → e.modem_id = m) ∧
        (∀ t, event_type = some t → e.etype = t.value) ∧
        (∀ s, status = some s → e.status = s.value)) ∧
    (get_events db modem_id event_type status limit).Pairwise
        (fun a b => b.timestamp ≤ a.timestamp) ∧
    (0 ≤ limit → (get_events db modem_id event_type status limit).length ≤ limit.toNat) ∧
    ((∀ r ∈ db.events, ∃ b, BodyGood b = true ∧ r.body = jsonDumps b) →
      ∀ e ∈ get_events db modem_id event_type status limit,
        ∃ r ∈ db.events, ∃ b, r.body = jsonDumps b ∧ e.body = some b) := by
  refine ⟨?_, ?_, ?_, ?_⟩
  · intro e he
    simp only [get_events] at he
    obtain ⟨r, hrL, rfl⟩ := List.mem_map.mp he
    have hrF : r ∈ db.events.filter (eventFilter modem_id event_type status) := by
      by_cases hl : limit < 0
      · rw [if_pos hl] at hrL
        exact (sortByTsDesc_perm _).mem_iff.mp hrL
      · rw [if_neg hl] at hrL
        exact (sortByTsDesc_perm _).mem_iff.mp (List.take_subset _ _ hrL)
    have hp := (List.mem_filter.mp hrF).2
    simp only [eventFilter, Bool.and_eq_true] at hp
    refine ⟨?_, ?_, ?_⟩
    · intro m hm hne
      subst hm
      have h1 : (if m ≠ "" then (decide (r.modem_id = m)) else true) = true := hp.1.1
      rw [if_pos hne] at h1
      exact of_decide_eq_true h1
    · intro t ht
      subst ht
      have h2 : (decide (r.etype = t.value)) = true := hp.1.2
      exact of_decide_eq_true h2
    · intro s hs
      subst hs
      have h3 : (decide (r.status = s.value)) = true := hp.2
      exact of_decide_eq_true h3
  · simp only [get_events]
    rw [List.pairwise_map]
    have hS := sortByTsDesc_sorted (db.events.filter (eventFilter modem_id event_type status))
    by_cases hl : limit < 0
    · rw [if_pos hl]
      exact hS
    · rw [if_neg hl]
      exact List.Pairwise.sublist (List.take_sublist _ _) hS
  · intro hl0
    simp only [get_events]
    rw [List.length_map, if_neg (by omega : ¬ limit < 0)]
    exact List.length_take_le _ _
  · intro hwf e he
    simp only [get_events] at he
    obtain ⟨r, hrL, rfl⟩ := List.mem_map.mp he
    have hrF : r ∈ db.events.filter (eventFilter modem_id event_type status) := by
      by_cases hl : limit < 0
      · rw [if_pos hl] at hrL
        exact (sortByTsDesc_perm _).mem_iff.mp hrL
      · rw [if_neg hl] at hrL
        exact (sortByTsDesc_perm _).mem_iff.mp (List.take_subset _ _ hrL)
    have hrE : r ∈ db.events := (List.mem_filter.mp hrF).1
    obtain ⟨b, hbg, hbody⟩ := hwf r hrE
    refine ⟨r, hrE, b, hbody, ?_⟩
    show jsonLoads r.body = some b
    rw [hbody]
    exact jsonLoads_dumps b hbg

/-- Witness for the amended C9: on a two-event database, the query
filtered by modem id "m1" satisfies the filter on its returned event,
is sorted most-recent-first and respects the default limit of 100. -/
theorem get_events_spec_witness :
    ({ id := 1, etype := "incoming_sms", status := "pending", modem_id := "m1",
       timestamp := 1, body := some [("k", "v")], error := none, created_at := 1,
       updated_at := 1 } : EventOut).modem_id = "m1" ∧
    (get_events
        (add_event (add_event emptyDatabase EventType.incoming_sms "m1" [("k", "v")]
            EventStatus.pending none 1).1
          EventType.outgoing_sms "m2" [("a", "b")] EventStatus.processed none 5).1
        (some "m1") none none 100).Pairwise (fun a b => b.timestamp ≤ a.timestamp) ∧
    (get_events
        (add_event (add_event emptyDatabase EventType.incoming_sms "m1" [("k", "v")]
            EventStatus.pending none 1).1
          EventType.outgoing_sms "m2" [("a", "b")] EventStatus.processed none 5).1
        (some "m1") none none 100).length ≤ (100 : Int).toNat := by
  have h := get_events_spec
    (add_event (add_event emptyDatabase EventType.incoming_sms "m1" [("k", "v")]
        EventStatus.pending none 1).1
      EventType.outgoing_sms "m2" [("a", "b")] EventStatus.processed none 5).1
    (some "m1") none none 100
  have he0 := h.1
    { id := 1, etype := "incoming_sms", status := "pending", modem_id := "m1",
      timestamp := 1, body := some [("k", "v")], error := none, created_at := 1,
      updated_at := 1 }
    (by decide)
  exact ⟨he0.1 "m1" rfl (by decide), h.2.1, h.2.2.1 (by decide)⟩

/-! ### `update_modem_state` -/

theorem applyFields_not_mem (kw : List (MField × SqlValue)) :
    ∀ (f : MField → SqlValue) (k : MField), k ∉ kw.map Prod.fst →
      applyFields kw f k = f k := by
  induction kw with
  | nil =>
      intro f k _
      rfl
  | cons p rest ih =>
      intro f k hk
      have hk1 : k ≠ p.1 := by
        intro hc
        exact hk (by rw [hc]; exact List.mem_map_of_mem Prod.fst (List.mem_cons_self _ _))
      have hk2 : k ∉ rest.map Prod.fst := by
        intro hc
        exact hk (by rw [List.map_cons]; exact List.mem_cons_of_mem _ hc)
      show applyFields rest (fun x => if x = p.1 then p.2 else f x) k = f k
      rw [ih _ k hk2]
      simp [hk1]

theorem applyFields_mem (kw : List (MField × SqlValue)) :
    ∀ (f : MField → SqlValue) (k : MField) (v : SqlValue),
      (kw.map Prod.fst).Nodup → (k, v) ∈ kw → applyFields kw f k = v := by
  induction kw with
  | nil =>
      intro f k v _ hmem
      cases hmem
  | cons p rest ih =>
      intro f k v hnd hmem
      rw [List.map_cons, List.nodup_cons] at hnd
      rcases List.mem_cons.mp hmem with h | h
      · have hp1 : p.1 = k := by rw [← h]
        have hp2 : p.2 = v := by rw [← h]
        have hknotin : k ∉ rest.map Prod.fst := hp1 ▸ hnd.1
        show applyFields rest (fun x => if x = p.1 then p.2 else f x) k = v
        rw [applyFields_not_mem rest _ k hknotin]
        simp [hp1, hp2]
      · show applyFields rest (fun x => if x = p.1 then p.2 else f x) k = v
        exact ih _ k v hnd.2 h

theorem find?_eq_none_all (l : List ModemRow) (mid : String)
    (h : l.find? (fun r => r.modem_id = mid) = none) :
    l.any (fun r => r.modem_id = mid) = false := by
  rw [List.any_eq_false]
  intro r hr
  exact List.find?_eq_none.mp h r hr

theorem find?_append_none (l₁ l₂ : List ModemRow) (p : ModemRow → Bool)
    (h : l₁.find? p = none) : (l₁ ++ l₂).find? p = l₂.find? p := by
  induction l₁ with
  | nil => rfl
  | cons x xs ih =>
      cases hpx : p x with
      | true =>
          rw [List.find?_cons_of_pos _ hpx] at h
          exact absurd h (by simp)
      | false =>
          rw [List.find?_cons_of_neg _ (by simp [hpx])] at h
          rw [List.cons_append, List.find?_cons_of_neg _ (by simp [hpx])]
          exact ih h

theorem find?_map_if (l : List ModemRow) (mid : String) (g : ModemRow → ModemRow)
    (hg : ∀ r, (g r).modem_id = r.modem_id) (row : ModemRow)
    (h : l.find? (fun r => r.modem_id = mid) = some row) :
    (l.map (fun r => if r.modem_id = mid then g r else r)).find?
        (fun r => r.modem_id = mid) = some (g row) := by
  induction l with
  | nil => cases h
  | cons x xs ih =>
      by_cases hx : x.modem_id = mid
      · rw [List.find?_cons_of_pos _ (by simp [hx])] at h
        have hxr : x = row := by
          injection h
        rw [List.map_cons, if_pos hx, List.find?_cons_of_pos _ (by simp [hg, hx])]
        rw [hxr]
      · rw [List.find?_cons_of_neg _ (by simp [hx])] at h
        rw [List.map_cons, if_neg hx, List.find?_cons_of_neg _ (by simp [hx])]
        exact ih h

theorem update_modem_state_fresh (db : Database) (mid : String)
    (kw : List (MField × SqlValue)) (now : Nat)
    (h : db.modems.any (fun r => r.modem_id = mid) = false) :
    (update_modem_state db mid kw now).modems
      = db.modems ++
        [{ modem_id := mid, fields := applyFields kw modemDefault,
           created_at := now, updated_at := now }] := by
  simp [update_modem_state, h]

theorem update_modem_state_existing (db : Database) (mid : String)
    (kw : List (MField × SqlValue)) (now : Nat)
    (h : db.modems.any (fun r => r.modem_id = mid) = true) :
    (update_modem_state db mid kw now).modems
      = db.modems.map (fun r =>
          if r.modem_id = mid then
            { r with fields := applyFields kw r.fields, updated_at := now }
          else r) := by
  simp [update_modem_state, h]

/-- Claim C7: on a modem id with no existing row, two
`update_modem_state` calls with disjoint field sets produce a row
containing the union of both updates; each call leaves every field it
does not name unchanged (the second call preserves the first call's
values, and unnamed columns keep their schema defaults), bumps the
`updated_at` marker, and neither update's fields are present before
its own call: no row exists before call one, and before call two the
second update's fields still hold their schema defaults. -/
theorem update_modem_state_disjoint_union (db : Database) (mid : String)
    (u1 u2 : List (MField × SqlValue)) (t1 t2 : Nat)
    (hnone : get_modem_state db mid = none)
    (hnd1 : (u1.map Prod.fst).Nodup) (hnd2 : (u2.map Prod.fst).Nodup)
    (hdisj : ∀ k ∈ u1.map Prod.fst, k ∉ u2.map Prod.fst) :
    ∃ row1 row2,
      get_modem_state (update_modem_state db mid u1 t1) mid = some row1 ∧
      get_modem_state
          (update_modem_state (update_modem_state db mid u1 t1) mid u2 t2) mid
        = some row2 ∧
      row1.updated_at = t1 ∧ row2.updated_at = t2 ∧
      (∀ k, k ∉ u1.map Prod.fst → row1.fields k = modemDefault k) ∧
      (∀ k v, (k, v) ∈ u1 → row1.fields k = v) ∧
      (∀ k v, (k, v) ∈ u1 → row2.fields k = v) ∧
      (∀ k v, (k, v) ∈ u2 → row2.fields k = v) ∧
      (∀ k, k ∉ u2.map Prod.fst → row2.fields k = row1.fields k) := by
  have hany1 : db.modems.any (fun r => r.modem_id = mid) = false :=
    find?_eq_none_all db.modems mid hnone
  have hget1 : get_modem_state (update_modem_state db mid u1 t1) mid
      = some { modem_id := mid, fields := applyFields u1 modemDefault,
               created_at := t1, updated_at := t1 } := by
    show (update_modem_state db mid u1 t1).modems.find? (fun r => r.modem_id = mid) = _
    rw [update_modem_state_fresh db mid u1 t1 hany1,
      find?_append_none db.modems _ _ hnone,
      List.find?_cons_of_pos _ (by simp)]
  have hany2 : (update_modem_state db mid u1 t1).modems.any
      (fun r => r.modem_id = mid) = true := by
    rw [List.any_eq_true]
    exact ⟨_, List.mem_of_find?_eq_some hget1, by simp⟩
  have hget2 : get_modem_state
      (update_modem_state (update_modem_state db mid u1 t1) mid u2 t2) mid
      = some { modem_id := mid,
               fields := applyFields u2 (applyFields u1 modemDefault),
               created_at := t1, updated_at := t2 } := by
    show (update_modem_state (update_modem_state db mid u1 t1) mid u2 t2).modems.find?
        (fun r => r.modem_id = mid) = _
    rw [update_modem_state_existing (update_modem_state db mid u1 t1) mid u2 t2 hany2]
    exact find?_map_if (update_modem_state db mid u1 t1).modems mid
      (fun r => { r with fields := applyFields u2 r.fields, updated_at := t2 })
      (fun r => rfl)
      { modem_id := mid, fields := applyFields u1 modemDefault,
        created_at := t1, updated_at := t1 }
      hget1
  refine ⟨_, _, hget1, hget2, rfl, rfl, ?_, ?_, ?_, ?_, ?_⟩
  · intro k hk
    exact applyFields_not_mem u1 modemDefault k hk
  · intro k v hkv
    exact applyFields_mem u1 modemDefault k v hnd1 hkv
  · intro k v hkv
    show applyFields u2 (applyFields u1 modemDefault) k = v
    rw [applyFields_not_mem u2 _ k (hdisj k (List.mem_map_of_mem Prod.fst hkv))]
    exact applyFields_mem u1 modemDefault k v hnd1 hkv
  · intro k v hkv
    exact applyFields_mem u2 _ k v hnd2 hkv
  · intro k hk
    show applyFields u2 (applyFields u1 modemDefault) k = applyFields u1 modemDefault k
    exact applyFields_not_mem u2 _ k hk

/-- Witness for C7: a fresh modem gets balance 5 in the first call and
network "Net" in the second; the final row holds both, keeps the
currency column at its NULL default and carries the second call's
update marker. -/
theorem update_modem_state_disjoint_union_witness :
    (get_modem_state (update_modem_state (update_modem_state emptyDatabase "m7"
        [(MField.balance, SqlValue.intV 5)] 1) "m7"
        [(MField.network, SqlValue.textV "Net")] 2) "m7").map
      (fun row => (row.fields MField.balance, row.fields MField.network,
                   row.fields MField.currency, row.updated_at))
      = some (SqlValue.intV 5, SqlValue.textV "Net", SqlValue.null, 2) := by
  obtain ⟨row1, row2, h1, h2, hu1, hu2, hdef1, hmem1, hmem12, hmem2, hframe⟩ :=
    update_modem_state_disjoint_union emptyDatabase "m7"
      [(MField.balance, SqlValue.intV 5)] [(MField.network, SqlValue.textV "Net")]
      1 2 rfl (by decide) (by decide) (by decide)
  rw [h2]
  have hb := hmem12 MField.balance (SqlValue.intV 5) (by decide)
  have hn := hmem2 MField.network (SqlValue.textV "Net") (by decide)
  have hc : row2.fields MField.currency = row1.fields MField.currency :=
    hframe MField.currency (by decide)
  have hc2 : row1.fields MField.currency = modemDefault MField.currency :=
    hdef1 MField.currency (by decide)
  have hc3 : row2.fields MField.currency = SqlValue.null := by
    rw [hc, hc2]
    rfl
  simp [hb, hn, hc3, hu2]
